import Mathlib

/-!
Verification of the orbital-addressing, disorder node-graph, hopping-compaction
and serialization logic of kite.py (KITE configuration exporter).

The Python source is shallowly embedded: numpy float/complex amplitudes are
modelled as exact rational complex numbers (`Cplx`), integer orbital ids as `ℤ`,
dictionaries keyed in insertion order as insertion-ordered lists, and calls
that raise `SystemExit` as `Except String` results.
-/

/-- A complex amplitude with exact rational components.  Models the numpy
complex scalars stored in hopping / disorder amplitude arrays. -/
structure Cplx where
  re : ℚ
  im : ℚ
deriving DecidableEq, Repr

instance : Zero Cplx := ⟨⟨0, 0⟩⟩

instance : Add Cplx := ⟨fun a b => ⟨a.re + b.re, a.im + b.im⟩⟩

theorem Cplx.add_def (a b : Cplx) : a + b = ⟨a.re + b.re, a.im + b.im⟩ := rfl

theorem Cplx.zero_def : (0 : Cplx) = ⟨0, 0⟩ := rfl

instance : AddCommMonoid Cplx where
  add_assoc a b c := by simp [Cplx.add_def, add_assoc]
  zero_add a := by simp [Cplx.add_def, Cplx.zero_def]
  add_zero a := by simp [Cplx.add_def, Cplx.zero_def]
  add_comm a b := by simp only [Cplx.add_def, Cplx.mk.injEq]; constructor <;> ring
  nsmul := nsmulRec

/-- Complex conjugation: `np.conj` / `.conjugate()` (src/kite.py lines 231, 254). -/
def Cplx.conj (a : Cplx) : Cplx := ⟨a.re, -a.im⟩

theorem Cplx.conj_of_real (a : Cplx) (h : a.im = 0) : a.conj = a := by
  cases a
  simp_all [Cplx.conj]

/-- The offset encoding
`relative_move = np.dot(np.asarray(relative_index) + 1, 3 ** np.linspace(0, D-1, D))`,
i.e. the sum over k of `(offset_k + 1) * 3^k` (src/kite.py lines 203-206, 1090-1091). -/
def encodeOffset : List ℤ → ℤ
  | [] => 0
  | o :: rest => (o + 1) + 3 * encodeOffset rest

/-- Inclusive prefix sums, `np.cumsum` of a list of naturals. -/
def cumsum : List ℕ → List ℕ
  | [] => []
  | x :: xs => x :: (cumsum xs).map (fun y => x + y)

/-- The exclusive prefix sums
`_num_orbitals_before = np.cumsum(num_orbitals) - num_orbitals`
(src/kite.py line 78; same computation at line 1081). -/
def orbitalsBefore (counts : List ℕ) : List ℕ :=
  List.zipWith (fun a b => a - b) (cumsum counts) counts

/-- The orbital id
`relative_move + (num_orbitals_before[sub] + orbital_index) * 3 ** space_size`
(src/kite.py lines 209-212 in the disorder node graph and lines 1093-1094 in the
base-lattice hopping expansion). -/
def orbId (offset : List ℤ) (before idx D : ℕ) : ℤ :=
  encodeOffset offset + ((before : ℤ) + (idx : ℤ)) * 3 ^ D

theorem cumsum_length (l : List ℕ) : (cumsum l).length = l.length := by
  induction l with
  | nil => rfl
  | cons x xs ih => simp [cumsum, ih]

theorem zipWith_sub_cumsum_map (c : ℕ) (l : List ℕ) :
    List.zipWith (fun a b => a - b) ((cumsum l).map (fun y => c + y)) l
      = (List.zipWith (fun a b => a - b) (cumsum l) l).map (fun y => c + y) := by
  induction l generalizing c with
  | nil => simp
  | cons x xs ih =>
    simp only [cumsum, List.map_cons, List.zipWith_cons_cons, List.map_map]
    have h1 : (fun y => c + y) ∘ (fun y => x + y) = fun y => (c + x) + y := by
      funext y; simp [Function.comp]; omega
    rw [h1, ih (c + x), ih x, List.map_map, h1]
    congr 1
    omega

theorem orbitalsBefore_cons (c : ℕ) (cs : List ℕ) :
    orbitalsBefore (c :: cs) = 0 :: (orbitalsBefore cs).map (fun y => c + y) := by
  simp only [orbitalsBefore, cumsum, List.zipWith_cons_cons, Nat.sub_self]
  rw [zipWith_sub_cumsum_map]

theorem orbitalsBefore_get (counts : List ℕ) (s : ℕ) (h : s < counts.length) :
    (orbitalsBefore counts)[s]? = some ((counts.take s).sum) := by
  induction counts generalizing s with
  | nil => simp at h
  | cons c cs ih =>
    cases s with
    | zero => simp [orbitalsBefore_cons]
    | succ n =>
      rw [orbitalsBefore_cons]
      simp only [List.getElem?_cons_succ, List.getElem?_map]
      rw [ih n (by simpa using h)]
      simp [List.take_succ_cons]

theorem encodeOffset_nonneg (o : List ℤ) (h : ∀ x ∈ o, -1 ≤ x ∧ x ≤ 1) :
    0 ≤ encodeOffset o := by
  induction o with
  | nil => simp [encodeOffset]
  | cons a rest ih =>
    have ha := h a (List.mem_cons_self a rest)
    have hr := ih (fun x hx => h x (List.mem_cons_of_mem a hx))
    simp only [encodeOffset]
    omega

theorem encodeOffset_lt (o : List ℤ) (h : ∀ x ∈ o, -1 ≤ x ∧ x ≤ 1) :
    encodeOffset o < 3 ^ o.length := by
  induction o with
  | nil => simp [encodeOffset]
  | cons a rest ih =>
    have ha := h a (List.mem_cons_self a rest)
    have hr := ih (fun x hx => h x (List.mem_cons_of_mem a hx))
    simp only [encodeOffset, List.length_cons, pow_succ]
    have h3 : (3 : ℤ) ^ rest.length * 3 = 3 * 3 ^ rest.length := by ring
    rw [h3]
    omega

theorem encodeOffset_inj (o1 o2 : List ℤ) (hlen : o1.length = o2.length)
    (h1 : ∀ x ∈ o1, -1 ≤ x ∧ x ≤ 1) (h2 : ∀ x ∈ o2, -1 ≤ x ∧ x ≤ 1)
    (he : encodeOffset o1 = encodeOffset o2) : o1 = o2 := by
  induction o1 generalizing o2 with
  | nil =>
    cases o2 with
    | nil => rfl
    | cons b s => simp at hlen
  | cons a r ih =>
    cases o2 with
    | nil => simp at hlen
    | cons b s =>
      have ha := h1 a (List.mem_cons_self a r)
      have hb := h2 b (List.mem_cons_self b s)
      have hr1 := fun x hx => h1 x (List.mem_cons_of_mem a hx)
      have hr2 := fun x hx => h2 x (List.mem_cons_of_mem b hx)
      simp only [encodeOffset] at he
      have hab : a = b ∧ encodeOffset r = encodeOffset s := by omega
      have hlen2 : r.length = s.length := by simpa using hlen
      rw [hab.1, ih s hlen2 hr1 hr2 hab.2]

theorem decomp_unique (e1 e2 g1 g2 P : ℤ) (hP : 0 < P)
    (he1 : 0 ≤ e1) (he1b : e1 < P) (he2 : 0 ≤ e2) (he2b : e2 < P)
    (heq : e1 + g1 * P = e2 + g2 * P) : e1 = e2 ∧ g1 = g2 := by
  have hmod : e1 % P = e2 % P := by
    have h1 : (e1 + g1 * P) % P = e1 % P := Int.add_mul_emod_self
    have h2 : (e2 + g2 * P) % P = e2 % P := Int.add_mul_emod_self
    rw [← h1, ← h2, heq]
  rw [Int.emod_eq_of_lt he1 he1b, Int.emod_eq_of_lt he2 he2b] at hmod
  refine ⟨hmod, ?_⟩
  have hg : g1 * P = g2 * P := by omega
  exact mul_right_cancel₀ (by omega) hg

theorem takeSum_mono (counts : List ℕ) (s t : ℕ) (h : s ≤ t) :
    (counts.take s).sum ≤ (counts.take t).sum := by
  have ht : t = s + (t - s) := by omega
  rw [ht, List.take_add, List.sum_append]
  omega

theorem takeSum_lt (counts : List ℕ) (s : ℕ) (hs : s < counts.length) (i : ℕ)
    (hi : i < counts.get ⟨s, hs⟩) :
    (counts.take s).sum + i < (counts.take (s + 1)).sum := by
  rw [List.sum_take_succ counts s hs]
  simp only [List.get_eq_getElem] at hi
  omega

theorem takeSum_add_inj (counts : List ℕ) (s1 s2 i1 i2 : ℕ)
    (hs1 : s1 < counts.length) (hs2 : s2 < counts.length)
    (hi1 : i1 < counts.get ⟨s1, hs1⟩) (hi2 : i2 < counts.get ⟨s2, hs2⟩)
    (heq : (counts.take s1).sum + i1 = (counts.take s2).sum + i2) :
    s1 = s2 ∧ i1 = i2 := by
  rcases Nat.lt_trichotomy s1 s2 with hlt | heqs | hgt
  · exfalso
    have h1 := takeSum_lt counts s1 hs1 i1 hi1
    have h2 := takeSum_mono counts (s1 + 1) s2 hlt
    have h3 : (counts.take s2).sum ≤ (counts.take s2).sum + i2 := Nat.le_add_right _ _
    omega
  · refine ⟨heqs, ?_⟩
    subst heqs
    omega
  · exfalso
    have h1 := takeSum_lt counts s2 hs2 i2 hi2
    have h2 := takeSum_mono counts (s2 + 1) s1 hgt
    omega

/-- C1: for every lattice dimension D in given range and every two distinct
triples (offset, sublattice, orbital index) with offsets componentwise in
the range from -1 to 1, valid sublattice index and orbital index below that
sublattice's orbital count, the orbital ids
`encode(offset) + (orbitals_before[sublattice] + orbital_index) * 3^D`
computed by kite.py (disorder node graph, lines 209-212, and base-lattice
hopping expansion, lines 1093-1094) are different: the encoding is injective
on its domain. -/
theorem orbitalId_injective
    (D : ℕ) (hD : D = 1 ∨ D = 2 ∨ D = 3)
    (counts : List ℕ) (o1 o2 : List ℤ) (s1 s2 i1 i2 b1 b2 : ℕ)
    (ho1 : o1.length = D) (ho2 : o2.length = D)
    (hr1 : ∀ x ∈ o1, -1 ≤ x ∧ x ≤ 1) (hr2 : ∀ x ∈ o2, -1 ≤ x ∧ x ≤ 1)
    (hs1 : s1 < counts.length) (hs2 : s2 < counts.length)
    (hi1 : i1 < counts.get ⟨s1, hs1⟩) (hi2 : i2 < counts.get ⟨s2, hs2⟩)
    (hb1 : (orbitalsBefore counts)[s1]? = some b1)
    (hb2 : (orbitalsBefore counts)[s2]? = some b2)
    (hne : ¬(o1 = o2 ∧ s1 = s2 ∧ i1 = i2)) :
    orbId o1 b1 i1 D ≠ orbId o2 b2 i2 D := by
  intro heq
  rw [orbitalsBefore_get counts s1 hs1] at hb1
  rw [orbitalsBefore_get counts s2 hs2] at hb2
  have hb1v : b1 = (counts.take s1).sum := by injection hb1 with h; omega
  have hb2v : b2 = (counts.take s2).sum := by injection hb2 with h; omega
  unfold orbId at heq
  have hP : (0 : ℤ) < 3 ^ D := by positivity
  have he1 := encodeOffset_nonneg o1 hr1
  have he1b : encodeOffset o1 < 3 ^ D := by
    have := encodeOffset_lt o1 hr1
    rwa [ho1] at this
  have he2 := encodeOffset_nonneg o2 hr2
  have he2b : encodeOffset o2 < 3 ^ D := by
    have := encodeOffset_lt o2 hr2
    rwa [ho2] at this
  obtain ⟨hE, hG⟩ := decomp_unique (encodeOffset o1) (encodeOffset o2)
    ((b1 : ℤ) + (i1 : ℤ)) ((b2 : ℤ) + (i2 : ℤ)) (3 ^ D) hP he1 he1b he2 he2b heq
  have ho : o1 = o2 := encodeOffset_inj o1 o2 (ho1.trans ho2.symm) hr1 hr2 hE
  have hGn : b1 + i1 = b2 + i2 := by exact_mod_cast hG
  rw [hb1v, hb2v] at hGn
  obtain ⟨hsEq, hiEq⟩ := takeSum_add_inj counts s1 s2 i1 i2 hs1 hs2 hi1 hi2 hGn
  exact hne ⟨ho, hsEq, hiEq⟩

/-- Witness for C1: in a 2D lattice with sublattice orbital counts [2, 1]
the triples (offset 00, sublattice 0, orbital 1) and
(offset 00, sublattice 1, orbital 0) receive different orbital ids. -/
theorem orbitalId_injective_witness :
    (orbitalsBefore [2, 1])[0]? = some 0 ∧ (orbitalsBefore [2, 1])[1]? = some 2 ∧
    orbId [0, 0] 0 1 2 ≠ orbId [0, 0] 2 0 2 := by
  refine ⟨by decide, by decide, ?_⟩
  exact orbitalId_injective 2 (by decide) [2, 1] [0, 0] [0, 0] 0 1 1 0 0 2
    (by decide) (by decide) (by decide) (by decide) (by decide) (by decide)
    (by decide) (by decide) (by decide) (by decide) (by decide)

/-- One (from-orbital, to-orbital, amplitude) triple fed to the coo_matrix
based hopping compaction (src/kite.py lines 1077-1110). -/
structure HopEntry where
  src : ℕ
  dst : ℕ
  amp : Cplx
deriving DecidableEq, Repr

/-- The distinct target columns stored for source row f: the coo-to-csr
conversion performed by getrow keeps one stored entry per distinct
(row, col) coordinate appearing in the input (src/kite.py lines 1109-1122). -/
def rowTargets (es : List HopEntry) (f : ℕ) : List ℕ :=
  ((es.filter (fun e => e.src == f)).map (fun e => e.dst)).dedup

/-- The accumulated amplitude at coordinate (f, t): duplicate coordinate
entries are summed by the sparse-matrix conversion
(src/kite.py lines 1109-1122). -/
def accumAmp (es : List HopEntry) (f t : ℕ) : Cplx :=
  ((es.filter (fun e => e.src == f && e.dst == t)).map (fun e => e.amp)).sum

/-- Row f of the compacted hopping table: its stored (to, accumulated
amplitude) pairs (src/kite.py lines 1115-1122). -/
def rowPairs (es : List HopEntry) (f : ℕ) : List (ℕ × Cplx) :=
  (rowTargets es f).map (fun t => (t, accumAmp es f t))

/-- C2: compacting a non-empty hopping entry list and any permutation of it
yields, for every source orbital row, the same multiset of
(target orbital id, accumulated amplitude) pairs; duplicates at equal
(from, to) coordinates are resolved by adding amplitudes, so the compacted
table is independent of input order. -/
theorem compact_perm_invariant (es1 es2 : List HopEntry) (hperm : es1.Perm es2)
    (hne : es1 ≠ []) (f : ℕ) :
    (rowPairs es1 f : Multiset (ℕ × Cplx)) = (rowPairs es2 f : Multiset (ℕ × Cplx)) := by
  have haccum : ∀ t, accumAmp es1 f t = accumAmp es2 f t := fun t =>
    ((hperm.filter _).map _).sum_eq
  have htargets : (rowTargets es1 f).Perm (rowTargets es2 f) :=
    ((hperm.filter _).map _).dedup
  apply Multiset.coe_eq_coe.mpr
  have h1 : (rowPairs es1 f).Perm
      ((rowTargets es2 f).map (fun t => (t, accumAmp es1 f t))) :=
    htargets.map _
  have h2 : (rowTargets es2 f).map (fun t => (t, accumAmp es1 f t)) = rowPairs es2 f :=
    List.map_congr_left (fun t _ => by rw [haccum t])
  exact h2 ▸ h1

/-- Witness for C2: two concrete entry lists that are permutations of one
another compact to the same row multiset for source row 0. -/
theorem compact_perm_invariant_witness :
    ([⟨0, 1, ⟨1, 0⟩⟩, ⟨0, 2, ⟨2, 0⟩⟩] : List HopEntry).Perm
        [⟨0, 2, ⟨2, 0⟩⟩, ⟨0, 1, ⟨1, 0⟩⟩] ∧
    ([⟨0, 1, ⟨1, 0⟩⟩, ⟨0, 2, ⟨2, 0⟩⟩] : List HopEntry) ≠ [] ∧
    (rowPairs [⟨0, 1, ⟨1, 0⟩⟩, ⟨0, 2, ⟨2, 0⟩⟩] 0 : Multiset (ℕ × Cplx))
      = (rowPairs [⟨0, 2, ⟨2, 0⟩⟩, ⟨0, 1, ⟨1, 0⟩⟩] 0 : Multiset (ℕ × Cplx)) :=
  ⟨by decide, by decide,
    compact_perm_invariant _ _ (by decide) (by decide) 0⟩

/-- Squared Euclidean norm of an integer vector.  The source gate
`np.linalg.norm(distance_relative) > space_size` (src/kite.py line 176) holds
exactly when `sumSq distance_relative > space_size ^ 2`. -/
def sumSq (l : List ℤ) : ℤ := (l.map (fun x => x * x)).sum

/-- Row-major enumeration of a 2D amplitude matrix with its multi_index, as
produced by np.nditer (src/kite.py lines 201-256).  A scalar amplitude (the
else branch, lines 233-254) behaves exactly like the 1x1 matrix case: both
append one forward and one conjugated entry with both indices 0. -/
def matrixEntries (A : List (List Cplx)) : List (ℕ × ℕ × Cplx) :=
  (A.enum.map (fun p => p.2.enum.map (fun q => (p.1, q.1, q.2)))).flatten

/-- The per-call state built by add_local_bond_disorder: the insertion-ordered
node map (_nodes_map, a dict orbital id -> dense node index; the list position
is the dense index), the local nodes_from / nodes_to lists and the local
orbital_hop amplitude list (src/kite.py lines 196-256). -/
structure BondState where
  nodesMap : List ℤ
  nodesFrom : List ℕ
  nodesTo : List ℕ
  hops : List Cplx
deriving DecidableEq, Repr

/-- map_the_orbital (src/kite.py lines 126-133): register an orbital id in the
node map with the next dense index if it is not present yet. -/
def mapTheOrbital (orb : ℤ) (m : List ℤ) : List ℤ :=
  if orb ∈ m then m else m ++ [orb]

/-- One iteration of the nditer loop body of add_local_bond_disorder
(src/kite.py lines 202-256): register both orbital ids, then append the
forward (from, to, amplitude) entry followed by its conjugated reverse
(to, from, conj amplitude) entry. -/
def addBondEntry (rf rt : List ℤ) (bf bt D : ℕ) (st : BondState)
    (e : ℕ × ℕ × Cplx) : BondState :=
  let oF := orbId rf bf e.1 D
  let oT := orbId rt bt e.2.1 D
  let m := mapTheOrbital oT (mapTheOrbital oF st.nodesMap)
  { nodesMap := m
    nodesFrom := st.nodesFrom ++ [m.indexOf oF, m.indexOf oT]
    nodesTo := st.nodesTo ++ [m.indexOf oT, m.indexOf oF]
    hops := st.hops ++ [e.2.2, e.2.2.conj] }

/-- The full nditer loop of add_local_bond_disorder over all amplitude
entries (src/kite.py lines 201-256). -/
def processBondEntries (rf rt : List ℤ) (bf bt D : ℕ) (st : BondState)
    (es : List (ℕ × ℕ × Cplx)) : BondState :=
  es.foldl (fun s e => addBondEntry rf rt bf bt D s e) st

def rangeErrMsg : String :=
  "Currently only the next nearest distances are supported, make the bond of the bond disorder shorter! "

def subFromErrMsg : String := "Desired initial sublattice doesnt exist in the chosen lattice! "

def subToErrMsg : String := "Desired final sublattice doesnt exist in the chosen lattice! "

/-- add_local_bond_disorder (src/kite.py lines 158-267) for a lattice with
per-sublattice orbital counts `counts` and space dimension D.  Sublattices are
addressed by index; the name lookup of the source (lines 180-194) becomes a
bounds check.  The range gate at line 176 (`np.linalg.norm(from - to) > D`)
is written equivalently as `sumSq (from - to) > D^2`.  On SystemExit no bond
entry has been appended (the lists _sub_from, _rel_idx_*, _hopping filled at
lines 161-165 before the gate are only pybinding-scaling bookkeeping, not part
of the node graph).  m0 is the node map of the disorder type before the
call. -/
def addLocalBondDisorder (counts : List ℕ) (D : ℕ) (rf : List ℤ) (sf : ℕ)
    (rt : List ℤ) (stIdx : ℕ) (A : List (List Cplx)) (m0 : List ℤ) :
    Except String BondState :=
  if sumSq (List.zipWith (fun a b => a - b) rf rt) > (D : ℤ) ^ 2 then
    .error rangeErrMsg
  else if counts.length ≤ sf then .error subFromErrMsg
  else if counts.length ≤ stIdx then .error subToErrMsg
  else
    .ok (processBondEntries rf rt ((orbitalsBefore counts).getD sf 0)
      ((orbitalsBefore counts).getD stIdx 0) D ⟨m0, [], [], []⟩ (matrixEntries A))

theorem processBondEntries_nil (rf rt : List ℤ) (bf bt D : ℕ) (st : BondState) :
    processBondEntries rf rt bf bt D st [] = st := rfl

theorem processBondEntries_cons (rf rt : List ℤ) (bf bt D : ℕ) (st : BondState)
    (e : ℕ × ℕ × Cplx) (es : List (ℕ × ℕ × Cplx)) :
    processBondEntries rf rt bf bt D st (e :: es)
      = processBondEntries rf rt bf bt D (addBondEntry rf rt bf bt D st e) es := rfl

theorem mem_mapTheOrbital_self (orb : ℤ) (m : List ℤ) : orb ∈ mapTheOrbital orb m := by
  unfold mapTheOrbital
  split
  · assumption
  · simp

theorem mem_mapTheOrbital (orb o2 : ℤ) (m : List ℤ) (h : orb ∈ m) :
    orb ∈ mapTheOrbital o2 m := by
  unfold mapTheOrbital
  split
  · exact h
  · exact List.mem_append_left _ h

theorem indexOf_mapTheOrbital (orb o2 : ℤ) (m : List ℤ) (h : orb ∈ m) :
    (mapTheOrbital o2 m).indexOf orb = m.indexOf orb := by
  unfold mapTheOrbital
  split
  · rfl
  · exact List.indexOf_append_of_mem h

theorem addBondEntry_mono (rf rt : List ℤ) (bf bt D : ℕ) (st : BondState)
    (e : ℕ × ℕ × Cplx) (o : ℤ) (h : o ∈ st.nodesMap) :
    o ∈ (addBondEntry rf rt bf bt D st e).nodesMap ∧
      (addBondEntry rf rt bf bt D st e).nodesMap.indexOf o = st.nodesMap.indexOf o := by
  unfold addBondEntry
  simp only
  have h1 := mem_mapTheOrbital o (orbId rf bf e.1 D) st.nodesMap h
  have h2 := mem_mapTheOrbital o (orbId rt bt e.2.1 D) _ h1
  refine ⟨h2, ?_⟩
  rw [indexOf_mapTheOrbital _ _ _ h1, indexOf_mapTheOrbital _ _ _ h]

theorem processBondEntries_mono (rf rt : List ℤ) (bf bt D : ℕ)
    (es : List (ℕ × ℕ × Cplx)) :
    ∀ (st : BondState) (o : ℤ), o ∈ st.nodesMap →
      o ∈ (processBondEntries rf rt bf bt D st es).nodesMap ∧
        (processBondEntries rf rt bf bt D st es).nodesMap.indexOf o
          = st.nodesMap.indexOf o := by
  induction es with
  | nil => intro st o h; exact ⟨h, rfl⟩
  | cons e rest ih =>
    intro st o h
    rw [processBondEntries_cons]
    obtain ⟨hm, hi⟩ := addBondEntry_mono rf rt bf bt D st e o h
    obtain ⟨hm2, hi2⟩ := ih (addBondEntry rf rt bf bt D st e) o hm
    exact ⟨hm2, hi2.trans hi⟩

theorem processBondEntries_extends (rf rt : List ℤ) (bf bt D : ℕ)
    (es : List (ℕ × ℕ × Cplx)) :
    ∀ st : BondState, ∃ t1 t2 t3,
      (processBondEntries rf rt bf bt D st es).hops = st.hops ++ t1 ∧
      (processBondEntries rf rt bf bt D st es).nodesFrom = st.nodesFrom ++ t2 ∧
      (processBondEntries rf rt bf bt D st es).nodesTo = st.nodesTo ++ t3 := by
  induction es with
  | nil => intro st; exact ⟨[], [], [], by simp [processBondEntries_nil]⟩
  | cons e rest ih =>
    intro st
    rw [processBondEntries_cons]
    obtain ⟨t1, t2, t3, h1, h2, h3⟩ := ih (addBondEntry rf rt bf bt D st e)
    refine ⟨[e.2.2, e.2.2.conj] ++ t1,
      [(addBondEntry rf rt bf bt D st e).nodesMap.indexOf (orbId rf bf e.1 D),
       (addBondEntry rf rt bf bt D st e).nodesMap.indexOf (orbId rt bt e.2.1 D)] ++ t2,
      [(addBondEntry rf rt bf bt D st e).nodesMap.indexOf (orbId rt bt e.2.1 D),
       (addBondEntry rf rt bf bt D st e).nodesMap.indexOf (orbId rf bf e.1 D)] ++ t3,
      ?_, ?_, ?_⟩
    · rw [h1]; simp [addBondEntry]
    · rw [h2]; simp [addBondEntry]
    · rw [h3]; simp [addBondEntry]

theorem getElem_append_pair {α : Type} (l t : List α) (x y : α) :
    ((l ++ [x, y]) ++ t)[l.length]? = some x ∧
      ((l ++ [x, y]) ++ t)[l.length + 1]? = some y := by
  rw [List.append_assoc]
  constructor
  · rw [List.getElem?_append_right (Nat.le_refl _)]
    simp
  · rw [List.getElem?_append_right (Nat.le_add_right _ _)]
    rw [Nat.add_sub_cancel_left]
    simp

theorem processBondEntries_spec (rf rt : List ℤ) (bf bt D : ℕ)
    (es : List (ℕ × ℕ × Cplx)) :
    ∀ (st : BondState) (k i j : ℕ) (a : Cplx), es[k]? = some (i, j, a) →
      (processBondEntries rf rt bf bt D st es).hops[st.hops.length + 2 * k]? = some a ∧
      (processBondEntries rf rt bf bt D st es).hops[st.hops.length + 2 * k + 1]?
        = some a.conj ∧
      (processBondEntries rf rt bf bt D st es).nodesFrom[st.nodesFrom.length + 2 * k]?
        = some ((processBondEntries rf rt bf bt D st es).nodesMap.indexOf (orbId rf bf i D)) ∧
      (processBondEntries rf rt bf bt D st es).nodesTo[st.nodesTo.length + 2 * k]?
        = some ((processBondEntries rf rt bf bt D st es).nodesMap.indexOf (orbId rt bt j D)) ∧
      (processBondEntries rf rt bf bt D st es).nodesFrom[st.nodesFrom.length + 2 * k + 1]?
        = some ((processBondEntries rf rt bf bt D st es).nodesMap.indexOf (orbId rt bt j D)) ∧
      (processBondEntries rf rt bf bt D st es).nodesTo[st.nodesTo.length + 2 * k + 1]?
        = some ((processBondEntries rf rt bf bt D st es).nodesMap.indexOf (orbId rf bf i D)) := by
  induction es with
  | nil =>
    intro st k i j a hk
    simp at hk
  | cons e rest ih =>
    intro st k i j a hk
    rw [processBondEntries_cons]
    cases k with
    | zero =>
      have he : e = (i, j, a) := by simpa using hk
      subst he
      set st1 := addBondEntry rf rt bf bt D st (i, j, a) with hst1
      obtain ⟨t1, t2, t3, h1, h2, h3⟩ := processBondEntries_extends rf rt bf bt D rest st1
      have hoF : orbId rf bf i D ∈ st1.nodesMap := by
        rw [hst1]
        exact mem_mapTheOrbital _ _ _ (mem_mapTheOrbital_self _ _)
      have hoT : orbId rt bt j D ∈ st1.nodesMap := mem_mapTheOrbital_self _ _
      obtain ⟨hmF, hiF⟩ := processBondEntries_mono rf rt bf bt D rest st1 _ hoF
      obtain ⟨hmT, hiT⟩ := processBondEntries_mono rf rt bf bt D rest st1 _ hoT
      have hh : st1.hops = st.hops ++ [a, a.conj] := rfl
      have hf : st1.nodesFrom = st.nodesFrom
          ++ [st1.nodesMap.indexOf (orbId rf bf i D), st1.nodesMap.indexOf (orbId rt bt j D)] := rfl
      have hto : st1.nodesTo = st.nodesTo
          ++ [st1.nodesMap.indexOf (orbId rt bt j D), st1.nodesMap.indexOf (orbId rf bf i D)] := rfl
      rw [h1, h2, h3, hh, hf, hto, hiF, hiT]
      simp only [Nat.mul_zero, Nat.add_zero]
      obtain ⟨ph1, ph2⟩ := getElem_append_pair st.hops t1 a a.conj
      obtain ⟨pf1, pf2⟩ := getElem_append_pair st.nodesFrom t2
        (st1.nodesMap.indexOf (orbId rf bf i D)) (st1.nodesMap.indexOf (orbId rt bt j D))
      obtain ⟨pt1, pt2⟩ := getElem_append_pair st.nodesTo t3
        (st1.nodesMap.indexOf (orbId rt bt j D)) (st1.nodesMap.indexOf (orbId rf bf i D))
      exact ⟨ph1, ph2, pf1, pt1, pf2, pt2⟩
    | succ n =>
      have hk2 : rest[n]? = some (i, j, a) := by simpa using hk
      set st1 := addBondEntry rf rt bf bt D st e with hst1
      obtain ⟨c1, c2, c3, c4, c5, c6⟩ := ih st1 n i j a hk2
      have lh : st1.hops.length = st.hops.length + 2 := by
        rw [hst1]; simp [addBondEntry]
      have lf : st1.nodesFrom.length = st.nodesFrom.length + 2 := by
        rw [hst1]; simp [addBondEntry]
      have lt2 : st1.nodesTo.length = st.nodesTo.length + 2 := by
        rw [hst1]; simp [addBondEntry]
      have g1 : st.hops.length + 2 * (n + 1) = st1.hops.length + 2 * n := by omega
      have g3 : st.nodesFrom.length + 2 * (n + 1) = st1.nodesFrom.length + 2 * n := by omega
      have g5 : st.nodesTo.length + 2 * (n + 1) = st1.nodesTo.length + 2 * n := by omega
      rw [g1, g3, g5]
      exact ⟨c1, c2, c3, c4, c5, c6⟩

/-- C3: for every successful add_local_bond_disorder call and every amplitude
entry A[i,j] it implies (the k-th entry in row-major order), the produced bond
lists hold at position 2k the forward entry
(node(from-orbital), node(to-orbital), A[i,j]) and, appended as its pair at
position 2k+1, the reversed entry
(node(to-orbital), node(from-orbital), conj(A[i,j])); when A[i,j] is real the
second entry's amplitude equals the first's (src/kite.py lines 201-264). -/
theorem bond_disorder_hermitian_pairs
    (counts : List ℕ) (D : ℕ) (rf : List ℤ) (sf : ℕ) (rt : List ℤ) (stIdx : ℕ)
    (A : List (List Cplx)) (m0 : List ℤ) (bs : BondState)
    (hok : addLocalBondDisorder counts D rf sf rt stIdx A m0 = Except.ok bs)
    (k i j : ℕ) (a : Cplx) (hk : (matrixEntries A)[k]? = some (i, j, a)) :
    bs.hops[2 * k]? = some a ∧
    bs.hops[2 * k + 1]? = some a.conj ∧
    bs.nodesFrom[2 * k]?
      = some (bs.nodesMap.indexOf (orbId rf ((orbitalsBefore counts).getD sf 0) i D)) ∧
    bs.nodesTo[2 * k]?
      = some (bs.nodesMap.indexOf (orbId rt ((orbitalsBefore counts).getD stIdx 0) j D)) ∧
    bs.nodesFrom[2 * k + 1]?
      = some (bs.nodesMap.indexOf (orbId rt ((orbitalsBefore counts).getD stIdx 0) j D)) ∧
    bs.nodesTo[2 * k + 1]?
      = some (bs.nodesMap.indexOf (orbId rf ((orbitalsBefore counts).getD sf 0) i D)) ∧
    (a.im = 0 → a.conj = a) := by
  unfold addLocalBondDisorder at hok
  split at hok
  · exact absurd hok (by simp)
  · split at hok
    · exact absurd hok (by simp)
    · split at hok
      · exact absurd hok (by simp)
      · have hbs : bs = processBondEntries rf rt ((orbitalsBefore counts).getD sf 0)
            ((orbitalsBefore counts).getD stIdx 0) D ⟨m0, [], [], []⟩ (matrixEntries A) := by
          injection hok with h
          exact h.symm
        subst hbs
        have h := processBondEntries_spec rf rt ((orbitalsBefore counts).getD sf 0)
          ((orbitalsBefore counts).getD stIdx 0) D (matrixEntries A)
          ⟨m0, [], [], []⟩ k i j a hk
        obtain ⟨h1, h2, h3, h4, h5, h6⟩ := h
        simp only [List.length_nil, Nat.zero_add] at h1 h2 h3 h4 h5 h6
        exact ⟨h1, h2, h3, h4, h5, h6, fun hre => Cplx.conj_of_real a hre⟩

/-- Concrete output state used by the C3 witness: result of adding a single
1x1 bond amplitude (1 + 2i) between sublattice 0 of cells 0 and +1 in 1D. -/
def bondWitnessState : BondState :=
  ⟨[1, 2], [0, 1], [1, 0], [⟨1, 2⟩, Cplx.conj ⟨1, 2⟩]⟩

/-- Witness for C3: the concrete call records the forward amplitude at
position 0 and its conjugate at position 1, with node pairs swapped. -/
theorem bond_disorder_hermitian_pairs_witness :
    addLocalBondDisorder [1] 1 [0] 0 [1] 0 [[⟨1, 2⟩]] [] = Except.ok bondWitnessState ∧
    bondWitnessState.hops[0]? = some ⟨1, 2⟩ ∧
    bondWitnessState.hops[1]? = some (Cplx.conj ⟨1, 2⟩) ∧
    bondWitnessState.nodesFrom[0]? = some 0 ∧
    bondWitnessState.nodesTo[0]? = some 1 ∧
    bondWitnessState.nodesFrom[1]? = some 1 ∧
    bondWitnessState.nodesTo[1]? = some 0 := by
  have hok : addLocalBondDisorder [1] 1 [0] 0 [1] 0 [[⟨1, 2⟩]] []
      = Except.ok bondWitnessState := by rfl
  obtain ⟨h1, h2, h3, h4, h5, h6, h7⟩ :=
    bond_disorder_hermitian_pairs [1] 1 [0] 0 [1] 0 [[⟨1, 2⟩]] [] bondWitnessState hok
      0 0 0 ⟨1, 2⟩ (by decide)
  have eF : bondWitnessState.nodesMap.indexOf (orbId [0] ((orbitalsBefore [1]).getD 0 0) 0 1)
      = 0 := by decide
  have eT : bondWitnessState.nodesMap.indexOf (orbId [1] ((orbitalsBefore [1]).getD 0 0) 0 1)
      = 1 := by decide
  refine ⟨hok, ?_, ?_, ?_, ?_, ?_, ?_⟩
  · simpa using h1
  · simpa using h2
  · simpa [eF] using h3
  · simpa [eT] using h4
  · simpa [eT] using h5
  · simpa [eF] using h6

/-- C6 counterexample: in a 2D lattice the offset difference (2, 0) between
from- and to-cells has a component of absolute value greater than 1, yet
add_local_bond_disorder succeeds (the gate at src/kite.py line 176 compares
the Euclidean norm 2 with the space dimension 2, and 2 is not greater than 2)
and the bond is recorded; the componentwise reading of the gate in the claim
is therefore false. -/
theorem bond_range_check_counterexample :
    (List.zipWith (fun a b => a - b) ([1, 0] : List ℤ) [-1, 0])[0]? = some 2 ∧
    (addLocalBondDisorder [1] 2 [1, 0] 0 [-1, 0] 0 [[⟨1, 0⟩]] []).isOk = true := by
  decide

/-- C6 amended: the range gate of add bond disorder is Euclidean, not
componentwise: a call fails with the range error exactly when
sumSq(offset_from - offset_to) > D^2 (equivalently, when the Euclidean norm
of the offset difference exceeds the space dimension D); on failure the error
is raised before any bond entry is appended, and when the gate passes and both
sublattices are valid the call succeeds (src/kite.py lines 174-178). -/
theorem bond_range_check (counts : List ℕ) (D : ℕ) (rf : List ℤ) (sf : ℕ)
    (rt : List ℤ) (stIdx : ℕ) (A : List (List Cplx)) (m0 : List ℤ) :
    (sumSq (List.zipWith (fun a b => a - b) rf rt) > (D : ℤ) ^ 2 →
      addLocalBondDisorder counts D rf sf rt stIdx A m0 = Except.error rangeErrMsg) ∧
    (¬ sumSq (List.zipWith (fun a b => a - b) rf rt) > (D : ℤ) ^ 2 →
      sf < counts.length → stIdx < counts.length →
      (addLocalBondDisorder counts D rf sf rt stIdx A m0).isOk = true) := by
  unfold addLocalBondDisorder
  constructor
  · intro h
    rw [if_pos h]
  · intro h h1 h2
    rw [if_neg h, if_neg (by omega), if_neg (by omega)]
    rfl

/-- Witness for C6 (amended): in 1D an offset difference of 2 trips the
Euclidean gate and the call fails with the range error. -/
theorem bond_range_check_witness :
    sumSq (List.zipWith (fun a b => a - b) [2] [0]) > (1 : ℤ) ^ 2 ∧
    addLocalBondDisorder [1] 1 [2] 0 [0] 0 [[⟨1, 0⟩]] [] = Except.error rangeErrMsg :=
  ⟨by decide, (bond_range_check [1] 1 [2] 0 [0] 0 [[⟨1, 0⟩]] []).1 (by decide)⟩

/-- The per-call state built by add_local_onsite_disorder: shared node map,
local nodes_onsite list and local onsite energy list
(src/kite.py lines 269-327). -/
structure OnsiteState where
  nodesMap : List ℤ
  nodesOnsite : List ℕ
  onsiteEn : List Cplx
deriving DecidableEq, Repr

/-- One iteration of the nditer loop body of add_local_onsite_disorder
(src/kite.py lines 296-318): register the orbital id and append its node
index and energy. -/
def addOnsiteEntry (rel : List ℤ) (b D : ℕ) (st : OnsiteState) (e : ℕ × Cplx) :
    OnsiteState :=
  let orb := orbId rel b e.1 D
  let m := mapTheOrbital orb st.nodesMap
  { nodesMap := m
    nodesOnsite := st.nodesOnsite ++ [m.indexOf orb]
    onsiteEn := st.onsiteEn ++ [e.2] }

/-- add_local_onsite_disorder (src/kite.py lines 269-327): the onsite value is
a 1D vector (a scalar behaves as the singleton vector via the else branch at
lines 310-317). -/
def addLocalOnsiteDisorder (counts : List ℕ) (D : ℕ) (rel : List ℤ) (s : ℕ)
    (v : List Cplx) (m0 : List ℤ) : Except String OnsiteState :=
  if counts.length ≤ s then .error subFromErrMsg
  else
    .ok (v.enum.foldl
      (fun st e => addOnsiteEntry rel ((orbitalsBefore counts).getD s 0) D st e)
      ⟨m0, [], []⟩)

/-- A disorder declaration passed to add_structural_disorder: a length-5 tuple
is a bond declaration, a length-3 tuple an onsite declaration
(src/kite.py lines 101-108). -/
inductive DisTerm
  | bond (rf : List ℤ) (sf : ℕ) (rt : List ℤ) (stIdx : ℕ) (A : List (List Cplx))
  | onsite (rel : List ℤ) (s : ℕ) (v : List Cplx)
deriving DecidableEq, Repr

def DisTerm.isBond : DisTerm → Bool
  | .bond .. => true
  | .onsite .. => false

/-- Number of amplitude entries implied by a bond declaration (n*m for an
n x m matrix); 0 for an onsite declaration. -/
def DisTerm.bondEntryCount : DisTerm → ℕ
  | .bond _ _ _ _ A => (matrixEntries A).length
  | .onsite .. => 0

/-- The mutable state of a StructuralDisorder instance that feeds the export:
_nodes_map, _num_nodes, _nodes_from, _nodes_to, _disorder_hopping,
_nodes_onsite, _disorder_onsite, the per-type counters and _node_orbital
(src/kite.py lines 36-79, 96-124). -/
structure SDState where
  nodesMap : List ℤ
  numNodes : ℕ
  nodesFrom : List (List ℕ)
  nodesTo : List (List ℕ)
  disorderHopping : List (List Cplx)
  nodesOnsite : List (List ℕ)
  disorderOnsite : List (List Cplx)
  numBondDisorderPerType : ℕ
  numOnsiteDisorderPerType : ℕ
  nodeOrbital : List ℤ
deriving DecidableEq, Repr

/-- A StructuralDisorder right after __init__ (src/kite.py lines 37-79). -/
def sdEmpty : SDState := ⟨[], 0, [], [], [], [], [], 0, 0, []⟩

/-- Dispatch of one disorder declaration inside add_structural_disorder
(src/kite.py lines 101-108) to add_local_bond_disorder or
add_local_onsite_disorder, with the resulting local lists appended to the
instance lists and _num_nodes updated to the running maximum
(src/kite.py lines 258-267, 320-327). -/
def applyTerm (counts : List ℕ) (D : ℕ) (sd : SDState) : DisTerm → Except String SDState
  | .bond rf sf rt stIdx A =>
    match addLocalBondDisorder counts D rf sf rt stIdx A sd.nodesMap with
    | .error e => .error e
    | .ok bs =>
      .ok { sd with
            nodesMap := bs.nodesMap,
            nodesFrom := sd.nodesFrom ++ [bs.nodesFrom],
            nodesTo := sd.nodesTo ++ [bs.nodesTo],
            disorderHopping := sd.disorderHopping ++ [bs.hops],
            numNodes := max sd.numNodes bs.nodesMap.length }
  | .onsite rel s v =>
    match addLocalOnsiteDisorder counts D rel s v sd.nodesMap with
    | .error e => .error e
    | .ok os =>
      .ok { sd with
            nodesMap := os.nodesMap,
            nodesOnsite := sd.nodesOnsite ++ [os.nodesOnsite],
            disorderOnsite := sd.disorderOnsite ++ [os.onsiteEn],
            numNodes := max sd.numNodes os.nodesMap.length }

/-- The declaration loop of add_structural_disorder (src/kite.py
lines 101-115); any SystemExit aborts the whole call. -/
def processTerms (counts : List ℕ) (D : ℕ) : SDState → List DisTerm → Except String SDState
  | sd, [] => .ok sd
  | sd, t :: ts =>
    match applyTerm counts D sd t with
    | .error e => .error e
    | .ok sd1 => processTerms counts D sd1 ts

/-- add_structural_disorder (src/kite.py lines 96-124).  Line 97 resets
_nodes_map to an empty dict before processing; after the loop the per-type
counters are overwritten with this call's counts and the node map is frozen
into _node_orbital.  The source sorts the dict keys by their dense-index
values (lines 119-124); since the values are 0..n-1 in insertion order, the
sorted key list is exactly the insertion-ordered key list, i.e. the node map
itself in this model. -/
def addStructuralDisorder (counts : List ℕ) (D : ℕ) (sd : SDState)
    (ds : List DisTerm) : Except String SDState :=
  match processTerms counts D { sd with nodesMap := [] } ds with
  | .error e => .error e
  | .ok sd1 =>
    .ok { sd1 with
      numBondDisorderPerType := ds.countP DisTerm.isBond,
      numOnsiteDisorderPerType := ds.countP (fun t => !t.isBond),
      nodeOrbital := sd1.nodesMap }

/-- State of a StructuralDisorder after a first add_structural_disorder call
with one 1D bond declaration between cells 0 and +1 (amplitude 1). -/
def sdAfterFirst : SDState :=
  ⟨[1, 2], 2, [[0, 1]], [[1, 0]], [[⟨1, 0⟩, Cplx.conj ⟨1, 0⟩]], [], [], 1, 0, [1, 2]⟩

/-- State after a second add_structural_disorder call (bond between cells 0
and -1, amplitude 2) on sdAfterFirst: the call succeeds and rebuilds the
node map. -/
def sdAfterSecond : SDState :=
  ⟨[1, 0], 2, [[0, 1], [0, 1]], [[1, 0], [1, 0]],
    [[⟨1, 0⟩, Cplx.conj ⟨1, 0⟩], [⟨2, 0⟩, Cplx.conj ⟨2, 0⟩]], [], [], 1, 0, [1, 0]⟩

/-- C7 counterexample: kite.py has no finalize method and raises no StateError
after the node map is frozen at the end of add_structural_disorder
(src/kite.py lines 96-124).  A second add_structural_disorder call on the
same instance succeeds (returns ok, not an error) and replaces the frozen
node list _node_orbital, contradicting the claim that every mutating
operation after the freeze fails with a StateError. -/
theorem finalize_twice_counterexample :
    addStructuralDisorder [1] 1 sdEmpty [DisTerm.bond [0] 0 [1] 0 [[⟨1, 0⟩]]]
      = Except.ok sdAfterFirst ∧
    addStructuralDisorder [1] 1 sdAfterFirst [DisTerm.bond [0] 0 [-1] 0 [[⟨2, 0⟩]]]
      = Except.ok sdAfterSecond ∧
    sdAfterSecond.nodeOrbital ≠ sdAfterFirst.nodeOrbital := by
  refine ⟨by rfl, by rfl, by decide⟩

/-- C7 amended: add_structural_disorder never fails with a StateError on
repeated calls; line 97 resets the node map, so the result is independent of
the previous node map, and on success the per-type counters are overwritten
with this call's declaration counts while the frozen _node_orbital list is
replaced by the freshly built node map (src/kite.py lines 96-124). -/
theorem add_structural_disorder_rebuilds (counts : List ℕ) (D : ℕ) (sd : SDState)
    (m : List ℤ) (ds : List DisTerm) :
    (addStructuralDisorder counts D { sd with nodesMap := m } ds
        = addStructuralDisorder counts D sd ds) ∧
    (∀ sdR, addStructuralDisorder counts D sd ds = Except.ok sdR →
      sdR.numBondDisorderPerType = ds.countP DisTerm.isBond ∧
      sdR.numOnsiteDisorderPerType = ds.countP (fun t => !t.isBond) ∧
      sdR.nodeOrbital = sdR.nodesMap) := by
  constructor
  · cases sd
    rfl
  · intro sdR h
    unfold addStructuralDisorder at h
    cases hp : processTerms counts D { sd with nodesMap := [] } ds with
    | error e =>
      rw [hp] at h
      exact absurd h (by simp)
    | ok sd1 =>
      rw [hp] at h
      injection h with h
      subst h
      exact ⟨rfl, rfl, rfl⟩

/-- Witness for C7 (amended): applied to the concrete second call above. -/
theorem add_structural_disorder_rebuilds_witness :
    addStructuralDisorder [1] 1 { sdAfterFirst with nodesMap := [7] }
        [DisTerm.bond [0] 0 [-1] 0 [[⟨2, 0⟩]]]
      = addStructuralDisorder [1] 1 sdAfterFirst [DisTerm.bond [0] 0 [-1] 0 [[⟨2, 0⟩]]] ∧
    sdAfterSecond.numBondDisorderPerType
      = ([DisTerm.bond [0] 0 [-1] 0 [[⟨2, 0⟩]]] : List DisTerm).countP DisTerm.isBond ∧
    sdAfterSecond.nodeOrbital = sdAfterSecond.nodesMap := by
  have h := add_structural_disorder_rebuilds [1] 1 sdAfterFirst [7]
    [DisTerm.bond [0] 0 [-1] 0 [[⟨2, 0⟩]]]
  obtain ⟨h2a, h2b, h2c⟩ := h.2 sdAfterSecond (by rfl)
  exact ⟨h.1, h2a, h2c⟩

/-- The exported NumBondDisorder dataset:
`2 * _num_bond_disorder_per_type` (src/kite.py lines 1232-1235). -/
def numBondDisorderExport (sd : SDState) : ℕ := 2 * sd.numBondDisorderPerType

/-- The exported flattened Hopping dataset
`np.asarray(_disorder_hopping).flatten()` (src/kite.py lines 1262-1272). -/
def flatHopping (sd : SDState) : List Cplx := sd.disorderHopping.flatten

/-- The exported flattened NodeFrom dataset (src/kite.py lines 1241-1243). -/
def flatNodeFrom (sd : SDState) : List ℕ := sd.nodesFrom.flatten

/-- The exported flattened NodeTo dataset (src/kite.py lines 1244-1246). -/
def flatNodeTo (sd : SDState) : List ℕ := sd.nodesTo.flatten

theorem processBondEntries_lengths (rf rt : List ℤ) (bf bt D : ℕ)
    (es : List (ℕ × ℕ × Cplx)) :
    ∀ st : BondState,
      (processBondEntries rf rt bf bt D st es).hops.length
        = st.hops.length + 2 * es.length ∧
      (processBondEntries rf rt bf bt D st es).nodesFrom.length
        = st.nodesFrom.length + 2 * es.length ∧
      (processBondEntries rf rt bf bt D st es).nodesTo.length
        = st.nodesTo.length + 2 * es.length := by
  induction es with
  | nil =>
    intro st
    simp [processBondEntries_nil]
  | cons e rest ih =>
    intro st
    rw [processBondEntries_cons]
    obtain ⟨h1, h2, h3⟩ := ih (addBondEntry rf rt bf bt D st e)
    refine ⟨?_, ?_, ?_⟩
    · rw [h1]
      simp only [addBondEntry, List.length_append, List.length_cons,
        List.length_nil, List.length_cons]
      omega
    · rw [h2]
      simp only [addBondEntry, List.length_append, List.length_cons, List.length_nil]
      omega
    · rw [h3]
      simp only [addBondEntry, List.length_append, List.length_cons, List.length_nil]
      omega

theorem addLocalBondDisorder_ok_lengths (counts : List ℕ) (D : ℕ) (rf : List ℤ)
    (sf : ℕ) (rt : List ℤ) (stIdx : ℕ) (A : List (List Cplx)) (m0 : List ℤ)
    (bs : BondState)
    (hok : addLocalBondDisorder counts D rf sf rt stIdx A m0 = Except.ok bs) :
    bs.hops.length = 2 * (matrixEntries A).length ∧
    bs.nodesFrom.length = 2 * (matrixEntries A).length ∧
    bs.nodesTo.length = 2 * (matrixEntries A).length := by
  unfold addLocalBondDisorder at hok
  split at hok
  · exact absurd hok (by simp)
  · split at hok
    · exact absurd hok (by simp)
    · split at hok
      · exact absurd hok (by simp)
      · injection hok with h
        rw [← h]
        refine ⟨?_, ?_, ?_⟩
        · have := (processBondEntries_lengths rf rt ((orbitalsBefore counts).getD sf 0)
            ((orbitalsBefore counts).getD stIdx 0) D (matrixEntries A) ⟨m0, [], [], []⟩).1
          simpa using this
        · have := (processBondEntries_lengths rf rt ((orbitalsBefore counts).getD sf 0)
            ((orbitalsBefore counts).getD stIdx 0) D (matrixEntries A) ⟨m0, [], [], []⟩).2.1
          simpa using this
        · have := (processBondEntries_lengths rf rt ((orbitalsBefore counts).getD sf 0)
            ((orbitalsBefore counts).getD stIdx 0) D (matrixEntries A) ⟨m0, [], [], []⟩).2.2
          simpa using this

theorem processTerms_flat_lengths (counts : List ℕ) (D : ℕ) (ds : List DisTerm) :
    ∀ sd sd' : SDState, processTerms counts D sd ds = Except.ok sd' →
      sd'.disorderHopping.flatten.length
        = sd.disorderHopping.flatten.length + 2 * (ds.map DisTerm.bondEntryCount).sum ∧
      sd'.nodesFrom.flatten.length
        = sd.nodesFrom.flatten.length + 2 * (ds.map DisTerm.bondEntryCount).sum ∧
      sd'.nodesTo.flatten.length
        = sd.nodesTo.flatten.length + 2 * (ds.map DisTerm.bondEntryCount).sum := by
  induction ds with
  | nil =>
    intro sd sd' h
    simp only [processTerms] at h
    injection h with h
    subst h
    simp
  | cons t ts ih =>
    intro sd sd' h
    cases ha : applyTerm counts D sd t with
    | error e =>
      simp only [processTerms, ha] at h
      exact Except.noConfusion h
    | ok sd1 =>
      simp only [processTerms, ha] at h
      obtain ⟨k1, k2, k3⟩ := ih sd1 sd' h
      cases t with
      | bond rf sf rt stIdx A =>
        cases hb : addLocalBondDisorder counts D rf sf rt stIdx A sd.nodesMap with
        | error e =>
          simp only [applyTerm, hb] at ha
          exact Except.noConfusion ha
        | ok bs =>
          simp only [applyTerm, hb] at ha
          injection ha with ha
          obtain ⟨l1, l2, l3⟩ :=
            addLocalBondDisorder_ok_lengths counts D rf sf rt stIdx A sd.nodesMap bs hb
          have e1 : sd1.disorderHopping = sd.disorderHopping ++ [bs.hops] := by
            rw [← ha]
          have e2 : sd1.nodesFrom = sd.nodesFrom ++ [bs.nodesFrom] := by
            rw [← ha]
          have e3 : sd1.nodesTo = sd.nodesTo ++ [bs.nodesTo] := by
            rw [← ha]
          rw [e1] at k1
          rw [e2] at k2
          rw [e3] at k3
          simp only [List.flatten_append, List.length_append, List.flatten,
            List.append_nil] at k1 k2 k3
          simp only [List.map_cons, List.sum_cons, DisTerm.bondEntryCount]
          refine ⟨?_, ?_, ?_⟩ <;> omega
      | onsite rel s v =>
        cases hb : addLocalOnsiteDisorder counts D rel s v sd.nodesMap with
        | error e =>
          simp only [applyTerm, hb] at ha
          exact Except.noConfusion ha
        | ok os =>
          simp only [applyTerm, hb] at ha
          injection ha with ha
          have e1 : sd1.disorderHopping = sd.disorderHopping := by rw [← ha]
          have e2 : sd1.nodesFrom = sd.nodesFrom := by rw [← ha]
          have e3 : sd1.nodesTo = sd.nodesTo := by rw [← ha]
          rw [e1] at k1
          rw [e2] at k2
          rw [e3] at k3
          simp only [List.map_cons, List.sum_cons, DisTerm.bondEntryCount]
          refine ⟨?_, ?_, ?_⟩ <;> omega

theorem countP_le_sum_entryCount (ds : List DisTerm)
    (h : ∀ t ∈ ds, t.isBond = true → 1 ≤ t.bondEntryCount) :
    ds.countP DisTerm.isBond ≤ (ds.map DisTerm.bondEntryCount).sum := by
  induction ds with
  | nil => simp
  | cons t ts ih =>
    have hts := ih (fun x hx hb => h x (List.mem_cons_of_mem t hx) hb)
    rw [List.countP_cons, List.map_cons, List.sum_cons]
    cases hb : t.isBond with
    | false => simp only [hb, if_neg Bool.false_ne_true]; omega
    | true =>
      have ht := h t (List.mem_cons_self t ts) hb
      simp [hb]
      omega

theorem countP_lt_sum_entryCount (ds : List DisTerm)
    (h1 : ∀ t ∈ ds, t.isBond = true → 1 ≤ t.bondEntryCount)
    (h2 : ∃ t ∈ ds, t.isBond = true ∧ 1 < t.bondEntryCount) :
    ds.countP DisTerm.isBond < (ds.map DisTerm.bondEntryCount).sum := by
  induction ds with
  | nil => simp at h2
  | cons t ts ih =>
    rw [List.countP_cons, List.map_cons, List.sum_cons]
    obtain ⟨w, hw, hwb, hwc⟩ := h2
    rcases List.mem_cons.mp hw with hwt | hwts
    · subst hwt
      have hts := countP_le_sum_entryCount ts
        (fun x hx hb => h1 x (List.mem_cons_of_mem w hx) hb)
      simp [hwb]
      omega
    · have hts := ih (fun x hx hb => h1 x (List.mem_cons_of_mem t hx) hb)
        ⟨w, hwts, hwb, hwc⟩
      cases hb : t.isBond with
      | false => simp only [hb, if_neg Bool.false_ne_true]; omega
      | true =>
        have ht := h1 t (List.mem_cons_self t ts) hb
        simp [hb]
        omega

/-- C9: for every successfully serialized StructuralDisorder type, the
exported NumBondDisorder field equals exactly 2 times the number of
bond-disorder declarations, independent of amplitude shape, while the
flattened NodeFrom/NodeTo/Hopping arrays hold 2*n*m entries per declaration
with an n x m amplitude matrix; the flattened arrays are strictly longer than
NumBondDisorder whenever some declaration has n*m > 1
(src/kite.py lines 99-104, 201-256, 1232-1246, 1262-1272). -/
theorem num_bond_disorder_export_correct (counts : List ℕ) (D : ℕ)
    (ds : List DisTerm) (sdR : SDState)
    (hok : addStructuralDisorder counts D sdEmpty ds = Except.ok sdR) :
    numBondDisorderExport sdR = 2 * ds.countP DisTerm.isBond ∧
    (flatHopping sdR).length = 2 * (ds.map DisTerm.bondEntryCount).sum ∧
    (flatNodeFrom sdR).length = 2 * (ds.map DisTerm.bondEntryCount).sum ∧
    (flatNodeTo sdR).length = 2 * (ds.map DisTerm.bondEntryCount).sum ∧
    ((∀ t ∈ ds, t.isBond = true → 1 ≤ t.bondEntryCount) →
      (∃ t ∈ ds, t.isBond = true ∧ 1 < t.bondEntryCount) →
      numBondDisorderExport sdR < (flatHopping sdR).length) := by
  unfold addStructuralDisorder at hok
  cases hp : processTerms counts D { sdEmpty with nodesMap := [] } ds with
  | error e =>
    rw [hp] at hok
    exact absurd hok (by simp)
  | ok sd1 =>
    rw [hp] at hok
    injection hok with hok
    obtain ⟨k1, k2, k3⟩ := processTerms_flat_lengths counts D ds _ sd1 hp
    simp only [sdEmpty, List.flatten_nil, List.length_nil, Nat.zero_add] at k1 k2 k3
    have f1 : flatHopping sdR = sd1.disorderHopping.flatten := by rw [← hok]; rfl
    have f2 : flatNodeFrom sdR = sd1.nodesFrom.flatten := by rw [← hok]; rfl
    have f3 : flatNodeTo sdR = sd1.nodesTo.flatten := by rw [← hok]; rfl
    have f4 : numBondDisorderExport sdR = 2 * ds.countP DisTerm.isBond := by
      rw [← hok]
      rfl
    refine ⟨f4, by rw [f1, k1], by rw [f2, k2], by rw [f3, k3], ?_⟩
    intro ha hb
    have hlt := countP_lt_sum_entryCount ds ha hb
    rw [f4, f1, k1]
    omega

/-- Serialized state used by the C9 witness: one bond declaration with a
1 x 2 amplitude matrix in 1D. -/
def sdC9 : SDState :=
  ⟨[1, 2, 5], 3, [[0, 1, 0, 2]], [[1, 0, 2, 0]],
    [[⟨1, 0⟩, Cplx.conj ⟨1, 0⟩, ⟨2, 0⟩, Cplx.conj ⟨2, 0⟩]], [], [], 1, 0, [1, 2, 5]⟩

/-- Witness for C9: a single declaration with a 1 x 2 matrix yields
NumBondDisorder = 2 but 4 flattened hopping entries. -/
theorem num_bond_disorder_export_witness :
    addStructuralDisorder [1] 1 sdEmpty [DisTerm.bond [0] 0 [1] 0 [[⟨1, 0⟩, ⟨2, 0⟩]]]
      = Except.ok sdC9 ∧
    numBondDisorderExport sdC9 = 2 ∧
    (flatHopping sdC9).length = 4 ∧
    numBondDisorderExport sdC9 < (flatHopping sdC9).length := by
  have hok : addStructuralDisorder [1] 1 sdEmpty
      [DisTerm.bond [0] 0 [1] 0 [[⟨1, 0⟩, ⟨2, 0⟩]]] = Except.ok sdC9 := by rfl
  obtain ⟨a1, a2, a3, a4, a5⟩ := num_bond_disorder_export_correct [1] 1
    [DisTerm.bond [0] 0 [1] 0 [[⟨1, 0⟩, ⟨2, 0⟩]]] sdC9 hok
  refine ⟨hok, ?_, ?_, a5 (by decide) (by decide)⟩
  · rw [a1]
    decide
  · rw [a2]
    decide

/-- The imag_part accumulator of config_system (src/kite.py lines 996-999):
the source sums np.linalg.norm of the imaginary part over all lattice
hoppings and tests `imag_part > 0`; that test holds exactly when the sum of
squared imaginary components used here is positive, i.e. when some imaginary
component of a base-lattice hopping is nonzero. -/
def imagNormSq (hops : List Cplx) : ℚ := (hops.map (fun a => a.im * a.im)).sum

/-- The is_complex upgrade (src/kite.py lines 1000-1006): if complex hoppings
are present but is_complex is 0, set the flag to 1.  Only the base-lattice
hoppings are inspected. -/
def upgradeComplex (complx : ℕ) (latticeHops : List Cplx) : ℕ :=
  if 0 < imagNormSq latticeHops ∧ complx = 0 then 1 else complx

/-- Mode-dependent serialization of one amplitude:
`it[0] if complx else np.real(it[0])` for base hoppings (src/kite.py
line 1099 and the Hoppings dataset at lines 1177-1182) and `.real` applied to
the disorder Hopping dataset in real mode (lines 1262-1272). -/
def modeValue (complx : ℕ) (a : Cplx) : Cplx :=
  if complx ≠ 0 then a else ⟨a.re, 0⟩

/-- The mode-relevant slice of config_system (src/kite.py lines 992-1006,
1086-1099, 1262-1272): resolve the complex/real flag from the base-lattice
hoppings first, then serialize base hoppings and structural-disorder bond
amplitudes under the resolved flag.  Division by energy_scale is orthogonal
and modelled separately. -/
def exportRun (isComplex : ℕ) (latticeHops disorderHops : List Cplx) :
    ℕ × List Cplx × List Cplx :=
  let complx := upgradeComplex isComplex latticeHops
  (complx, latticeHops.map (modeValue complx), disorderHops.map (modeValue complx))

theorem imagNormSq_pos_iff (l : List Cplx) :
    0 < imagNormSq l ↔ ∃ a ∈ l, a.im ≠ 0 := by
  induction l with
  | nil => simp [imagNormSq]
  | cons a rest ih =>
    have hs : 0 ≤ (rest.map (fun b => b.im * b.im)).sum := by
      apply List.sum_nonneg
      intro x hx
      obtain ⟨b, hb, rfl⟩ := List.mem_map.mp hx
      exact mul_self_nonneg _
    simp only [imagNormSq, List.map_cons, List.sum_cons] at ih ⊢
    constructor
    · intro h
      by_cases ha : a.im = 0
      · have hpos : 0 < (rest.map (fun b => b.im * b.im)).sum := by
          rw [ha] at h
          simpa using h
        obtain ⟨b, hb, hbi⟩ := ih.mp hpos
        exact ⟨b, List.mem_cons_of_mem a hb, hbi⟩
      · exact ⟨a, List.mem_cons_self a rest, ha⟩
    · rintro ⟨b, hb, hbi⟩
      rcases List.mem_cons.mp hb with hba | hb2
      · subst hba
        have h1 : 0 < b.im * b.im := mul_self_pos.mpr hbi
        linarith
      · have h1 := ih.mpr ⟨b, hb2, hbi⟩
        have h2 : 0 ≤ a.im * a.im := mul_self_nonneg _
        linarith

/-- C4 counterexample: with a real declaration (is_complex = 0), all
base-lattice hoppings real and a structural-disorder bond amplitude equal
to i, the flag check of config_system (src/kite.py lines 996-1006) inspects
only the lattice hoppings: the exported flag stays 0 and the disorder
amplitude's imaginary part is silently dropped at serialization
(lines 1268-1272), contradicting the claim for disorder amplitudes. -/
theorem complex_upgrade_counterexample :
    Cplx.im ⟨0, 1⟩ ≠ 0 ∧
    (exportRun 0 [⟨1, 0⟩] [⟨0, 1⟩]).1 = 0 ∧
    (exportRun 0 [⟨1, 0⟩] [⟨0, 1⟩]).2.2 = [⟨0, 0⟩] := by
  have h0 : imagNormSq [⟨1, 0⟩] = 0 := by
    simp [imagNormSq]
  have h1 : upgradeComplex 0 [⟨1, 0⟩] = 0 := by
    simp [upgradeComplex, h0]
  refine ⟨by decide, ?_, ?_⟩
  · simp [exportRun, h1]
  · simp [exportRun, h1, modeValue]

/-- C4 amended: restricted to base-lattice hoppings, which are the only
amplitudes the check at src/kite.py lines 996-1006 inspects: for a real
declaration with some base-lattice hopping carrying a nonzero imaginary part,
the flag is upgraded to complex before any amplitude is serialized and no
imaginary part (base or disorder) is dropped; the flag is set at most once
(result is either 1 or the incoming flag) and a complex declaration is never
downgraded.  Structural-disorder bond amplitudes do not trigger the
upgrade. -/
theorem complex_upgrade (isC : ℕ) (latticeHops disorderHops : List Cplx) :
    (isC = 0 → (∃ a ∈ latticeHops, a.im ≠ 0) →
      (exportRun isC latticeHops disorderHops).1 = 1 ∧
      (exportRun isC latticeHops disorderHops).2.1 = latticeHops ∧
      (exportRun isC latticeHops disorderHops).2.2 = disorderHops) ∧
    (isC ≠ 0 → (exportRun isC latticeHops disorderHops).1 = isC) ∧
    ((exportRun isC latticeHops disorderHops).1 = 1 ∨
      (exportRun isC latticeHops disorderHops).1 = isC) := by
  refine ⟨?_, ?_, ?_⟩
  · intro h0 hex
    have hpos : 0 < imagNormSq latticeHops := (imagNormSq_pos_iff _).mpr hex
    have hflag : upgradeComplex isC latticeHops = 1 := by
      simp [upgradeComplex, hpos, h0]
    have hmv : modeValue 1 = id := funext fun a => by simp [modeValue]
    refine ⟨by simp [exportRun, hflag], ?_, ?_⟩
    · simp [exportRun, hflag, hmv]
    · simp [exportRun, hflag, hmv]
  · intro h
    simp [exportRun, upgradeComplex, h]
  · unfold exportRun upgradeComplex
    simp only
    split
    · left
      rfl
    · right
      rfl

/-- Witness for C4 (amended): a real declaration with base hopping i is
upgraded and serialized without truncation. -/
theorem complex_upgrade_witness :
    (0 : ℕ) = 0 ∧ Cplx.im ⟨0, 1⟩ ≠ 0 ∧
    (exportRun 0 [⟨0, 1⟩] [⟨3, 4⟩]).1 = 1 ∧
    (exportRun 0 [⟨0, 1⟩] [⟨3, 4⟩]).2.1 = [⟨0, 1⟩] ∧
    (exportRun 0 [⟨0, 1⟩] [⟨3, 4⟩]).2.2 = [⟨3, 4⟩] := by
  obtain ⟨p1, p2, p3⟩ := (complex_upgrade 0 [⟨0, 1⟩] [⟨3, 4⟩]).1 rfl
    ⟨⟨0, 1⟩, by decide, by decide⟩
  exact ⟨rfl, by decide, p1, p2, p3⟩

/-- Division of an amplitude by the scalar energy scale
(src/kite.py lines 1179, 1182, 1267, 1272). -/
def Cplx.divQ (a : Cplx) (s : ℚ) : Cplx := ⟨a.re / s, a.im / s⟩

/-- On-site rows of the hoppings list:
`'hopping_energy': sub.energy - config.energy_shift`
(src/kite.py lines 1050-1051); the shift is real. -/
def onsiteHoppingEntry (shift : ℚ) (e : Cplx) : Cplx := ⟨e.re - shift, e.im⟩

/-- The value rows that feed the Hamiltonian table: one on-site row per
sublattice energy, with the shift subtracted, followed by the raw hopping
terms, with no shift (src/kite.py lines 1040-1075; the Hermitian expansion of
lines 1060-1075 only adds more raw/conjugated hopping terms, which take the
same unshifted path). -/
def hamiltonianValues (shift : ℚ) (subEnergies hopTerms : List Cplx) : List Cplx :=
  subEnergies.map (onsiteHoppingEntry shift) ++ hopTerms

/-- The serialized Hoppings dataset: each value divided by energy_scale after
mode resolution (src/kite.py lines 1177-1182). -/
def serializedHoppings (complx : ℕ) (scale : ℚ) (t : List Cplx) : List Cplx :=
  t.map (fun a => (modeValue complx a).divQ scale)

/-- The serialized structural-disorder Hopping dataset: each bond amplitude
divided by energy_scale after mode resolution, with no shift
(src/kite.py lines 1262-1272). -/
def serializedDisorderHopping (complx : ℕ) (scale : ℚ) (hp : List Cplx) : List Cplx :=
  hp.map (fun a => (modeValue complx a).divQ scale)

/-- The singleshot Energy dataset: `(energies - energy_shift) / energy_scale`
(src/kite.py line 1416). -/
def serializedSingleshotEnergy (scale shift : ℚ) (es : List ℚ) : List ℚ :=
  es.map (fun E => (E - shift) / scale)

/-- The singleshot Gamma dataset: `eta / energy_scale`, no shift
(src/kite.py line 1418). -/
def serializedGamma (scale : ℚ) (etas : List ℚ) : List ℚ :=
  etas.map (fun x => x / scale)

/-- The Temperature datasets: `temperature / energy_scale`, no shift
(src/kite.py lines 1313, 1335, 1358). -/
def serializedTemperature (scale : ℚ) (ts : List ℚ) : List ℚ :=
  ts.map (fun x => x / scale)

/-- C5: with fixed scale s and shift c, every serialized base-hopping value
equals the (mode-resolved) raw amplitude divided by s with no shift
subtracted; every sublattice on-site energy has c subtracted before the
division by s; every structural-disorder bond amplitude is divided by s with
no shift; every singleshot probe energy is serialized as (E - c)/s while
Gamma (eta) and temperature values are divided by s without shift. -/
theorem scaling_shift_rules (scale shift : ℚ) (complx : ℕ)
    (subEnergies hopTerms disorderHops : List Cplx) (es etas temps : List ℚ)
    (k : ℕ) :
    (∀ e, subEnergies[k]? = some e →
      (serializedHoppings complx scale (hamiltonianValues shift subEnergies hopTerms))[k]?
        = some ((modeValue complx ⟨e.re - shift, e.im⟩).divQ scale)) ∧
    (∀ a, hopTerms[k]? = some a →
      (serializedHoppings complx scale
          (hamiltonianValues shift subEnergies hopTerms))[subEnergies.length + k]?
        = some ((modeValue complx a).divQ scale)) ∧
    (∀ a, disorderHops[k]? = some a →
      (serializedDisorderHopping complx scale disorderHops)[k]?
        = some ((modeValue complx a).divQ scale)) ∧
    (∀ E, es[k]? = some E →
      (serializedSingleshotEnergy scale shift es)[k]? = some ((E - shift) / scale)) ∧
    (∀ x, etas[k]? = some x → (serializedGamma scale etas)[k]? = some (x / scale)) ∧
    (∀ x, temps[k]? = some x → (serializedTemperature scale temps)[k]? = some (x / scale)) := by
  refine ⟨?_, ?_, ?_, ?_, ?_, ?_⟩
  · intro e he
    have hk : k < subEnergies.length := by
      rcases List.getElem?_eq_some.mp he with ⟨hlt, _⟩
      exact hlt
    have hk2 : k < (subEnergies.map (onsiteHoppingEntry shift)).length := by
      simpa using hk
    unfold serializedHoppings hamiltonianValues
    rw [List.getElem?_map, List.getElem?_append_left hk2, List.getElem?_map, he]
    rfl
  · intro a ha
    unfold serializedHoppings hamiltonianValues
    rw [List.getElem?_map]
    have hlen : (subEnergies.map (onsiteHoppingEntry shift)).length ≤ subEnergies.length + k := by
      simp
    rw [List.getElem?_append_right hlen]
    simp only [List.length_map, Nat.add_sub_cancel_left]
    rw [ha]
    rfl
  · intro a ha
    unfold serializedDisorderHopping
    rw [List.getElem?_map, ha]
    rfl
  · intro E hE
    unfold serializedSingleshotEnergy
    rw [List.getElem?_map, hE]
    rfl
  · intro x hx
    unfold serializedGamma
    rw [List.getElem?_map, hx]
    rfl
  · intro x hx
    unfold serializedTemperature
    rw [List.getElem?_map, hx]
    rfl

/-- Witness for C5: concrete scale 2, shift 1: an on-site energy 3 exports as
(3-1)/2 = 1, a hopping 5+6i as (5/2) + 3i with no shift, a disorder bond
7+8i as (7/2) + 4i, a probe energy 5 as (5-1)/2 = 2, eta 4 as 2, and
temperature 6 as 3. -/
theorem scaling_shift_rules_witness :
    (serializedHoppings 1 2 (hamiltonianValues 1 [⟨3, 0⟩] [⟨5, 6⟩]))[0]? = some ⟨1, 0⟩ ∧
    (serializedHoppings 1 2 (hamiltonianValues 1 [⟨3, 0⟩] [⟨5, 6⟩]))[1]? = some ⟨5/2, 3⟩ ∧
    (serializedDisorderHopping 1 2 [⟨7, 8⟩])[0]? = some ⟨7/2, 4⟩ ∧
    (serializedSingleshotEnergy 2 1 [5])[0]? = some 2 ∧
    (serializedGamma 2 [4])[0]? = some 2 ∧
    (serializedTemperature 2 [6])[0]? = some 3 := by
  obtain ⟨p1, p2, p3, p4, p5, p6⟩ :=
    scaling_shift_rules 2 1 1 [⟨3, 0⟩] [⟨5, 6⟩] [⟨7, 8⟩] [5] [4] [6] 0
  refine ⟨?_, ?_, ?_, ?_, ?_, ?_⟩
  · rw [p1 ⟨3, 0⟩ rfl]
    simp only [modeValue, Cplx.divQ]
    norm_num
  · have := p2 ⟨5, 6⟩ rfl
    simp only [List.length_cons, List.length_nil] at this
    rw [this]
    simp only [modeValue, Cplx.divQ]
    norm_num
  · rw [p3 ⟨7, 8⟩ rfl]
    simp only [modeValue, Cplx.divQ]
    norm_num
  · rw [p4 5 rfl]
    norm_num
  · rw [p5 4 rfl]
    norm_num
  · rw [p6 6 rfl]
    norm_num

/-- Parameters of one dos request (src/kite.py lines 482-498). -/
structure DosParams where
  numPoints : ℕ
  numMoments : ℕ
  numRandom : ℕ
  numDisorder : ℕ
deriving DecidableEq, Repr

/-- Parameters of one conductivity_dc / conductivity_optical request
(src/kite.py lines 500-556). -/
structure CondParams where
  direction : ℕ
  numPoints : ℕ
  numMoments : ℕ
  numRandom : ℕ
  numDisorder : ℕ
  temperature : ℚ
deriving DecidableEq, Repr

/-- Parameters of one conductivity_optical_nonlinear request
(src/kite.py lines 558-591). -/
structure NonlinearParams where
  direction : ℕ
  numPoints : ℕ
  numMoments : ℕ
  numRandom : ℕ
  numDisorder : ℕ
  temperature : ℚ
  special : ℕ
deriving DecidableEq, Repr

/-- Parameters of one singleshot_conductivity_dc request
(src/kite.py lines 593-626); energy, eta, num_moments and preserve_disorder
are np.atleast_1d arrays. -/
structure SingleshotParams where
  energy : List ℚ
  direction : ℕ
  eta : List ℚ
  numMoments : List ℕ
  numRandom : ℕ
  numDisorder : ℕ
  preserveDisorder : List Bool
deriving DecidableEq, Repr

/-- The request lists held by a Calculation object
(src/kite.py lines 462-473). -/
structure CalcRequests where
  dos : List DosParams
  conductivityDc : List CondParams
  conductivityOptical : List CondParams
  conductivityOpticalNonlinear : List NonlinearParams
  singleshotConductivityDc : List SingleshotParams
deriving DecidableEq, Repr

def singleRequestMsg : String :=
  "Only a single function request of each type is currently allowed. Please use another configuration file for the same functionality."

def singleshotLengthMsg : String :=
  "Number of moments, eta, energy and preserve_disorder should either have the same length or specified as a single value! Choose them accordingly."

/-- The singleshot length-consistency check (src/kite.py lines 1374-1390):
each of the four array lengths must equal the maximum length or 1. -/
def singleshotLensOk (p : SingleshotParams) : Bool :=
  let lens := [p.energy.length, p.eta.length, p.preserveDisorder.length,
    p.numMoments.length]
  let m := lens.foldr max 0
  lens.all (fun l => l == m || l == 1)

/-- The Calculation block of config_system (src/kite.py lines 1274-1420),
reduced to its control flow: the kinds are processed in order (dos,
conductivity_dc, conductivity_optical, conductivity_optical_nonlinear,
singleshot_conductivity_dc); inside the singleshot block each request's
parameter lengths are validated (line 1386) before that kind's
single-request check (lines 1410-1412); each kind with more than one request
raises the single-request SystemExit (lines 1286-1288, 1306-1308, 1328-1330,
1351-1353, 1410-1412). -/
def exportCalculation (c : CalcRequests) : Except String Unit :=
  if 1 < c.dos.length then .error singleRequestMsg
  else if 1 < c.conductivityDc.length then .error singleRequestMsg
  else if 1 < c.conductivityOptical.length then .error singleRequestMsg
  else if 1 < c.conductivityOpticalNonlinear.length then .error singleRequestMsg
  else if c.singleshotConductivityDc.any (fun p => !singleshotLensOk p) then
    .error singleshotLengthMsg
  else if 1 < c.singleshotConductivityDc.length then .error singleRequestMsg
  else .ok ()

/-- C8: whenever some calculation kind holds two or more requests the whole
export fails (aborts); with at most one request per kind the single-request
failure never occurs. -/
theorem single_request_per_kind (c : CalcRequests) :
    ((1 < c.dos.length ∨ 1 < c.conductivityDc.length ∨
      1 < c.conductivityOptical.length ∨ 1 < c.conductivityOpticalNonlinear.length ∨
      1 < c.singleshotConductivityDc.length) → (exportCalculation c).isOk = false) ∧
    ((c.dos.length ≤ 1 ∧ c.conductivityDc.length ≤ 1 ∧
      c.conductivityOptical.length ≤ 1 ∧ c.conductivityOpticalNonlinear.length ≤ 1 ∧
      c.singleshotConductivityDc.length ≤ 1) →
      exportCalculation c ≠ Except.error singleRequestMsg) := by
  unfold exportCalculation
  constructor
  · intro h
    split_ifs with h1 h2 h3 h4 h5 h6
    · rfl
    · rfl
    · rfl
    · rfl
    · rfl
    · rfl
    · omega
  · intro h
    obtain ⟨g1, g2, g3, g4, g5⟩ := h
    split_ifs with h1 h2 h3 h4 h5 h6
    · omega
    · omega
    · omega
    · omega
    · intro heq
      have : singleshotLengthMsg = singleRequestMsg := by
        injection heq
      exact absurd this (by decide)
    · omega
    · intro heq
      exact Except.noConfusion heq

/-- Witness for C8: two dos requests make the export fail; a configuration
with one request per kind does not hit the single-request error. -/
theorem single_request_per_kind_witness :
    (exportCalculation ⟨[⟨100, 200, 1, 1⟩, ⟨100, 200, 1, 1⟩], [], [], [], []⟩).isOk
      = false ∧
    exportCalculation ⟨[⟨100, 200, 1, 1⟩], [], [], [], []⟩
      ≠ Except.error singleRequestMsg :=
  ⟨(single_request_per_kind ⟨[⟨100, 200, 1, 1⟩, ⟨100, 200, 1, 1⟩], [], [], [], []⟩).1
      (by decide),
   (single_request_per_kind ⟨[⟨100, 200, 1, 1⟩], [], [], [], []⟩).2 (by decide)⟩

/-- The numpy dtype selected by Configuration.set_type
(src/kite.py lines 670-686). -/
inductive HType
  | float32
  | float64
  | float128
  | complex64
  | complex128
  | complex256
deriving DecidableEq, Repr

def precisionErrMsg : String := "Precision should be 0, 1 or 2"

/-- Configuration.set_type (src/kite.py lines 670-686): in real mode
(is_complex = 0) an out-of-range precision raises SystemExit; in complex mode
the if/elif chain has no else branch, so an out-of-range precision leaves
_htype unchanged. -/
def setType (isComplex precision : ℕ) (htype : HType) : Except String HType :=
  if isComplex = 0 then
    if precision = 0 then .ok .float32
    else if precision = 1 then .ok .float64
    else if precision = 2 then .ok .float128
    else .error precisionErrMsg
  else
    if precision = 0 then .ok .complex64
    else if precision = 1 then .ok .complex128
    else if precision = 2 then .ok .complex256
    else .ok htype

/-- Configuration.__init__ sets `self._htype = np.float32` and then calls
set_type (src/kite.py lines 667-668). -/
def configurationInitHType (isComplex precision : ℕ) : Except String HType :=
  setType isComplex precision HType.float32

/-- C10: creating a Configuration with is_complex true and a precision value
outside 0,1,2 raises no error and the Hamiltonian dtype silently keeps the
float32 default, while with is_complex false the same precision fails with
the precision error: the validity check runs only in real mode
(src/kite.py lines 661-686). -/
theorem set_type_precision_check (isComplex precision : ℕ)
    (hp : precision ≠ 0 ∧ precision ≠ 1 ∧ precision ≠ 2) :
    (isComplex ≠ 0 →
      configurationInitHType isComplex precision = Except.ok HType.float32) ∧
    (isComplex = 0 →
      configurationInitHType isComplex precision = Except.error precisionErrMsg) := by
  obtain ⟨h0, h1, h2⟩ := hp
  constructor
  · intro hc
    unfold configurationInitHType setType
    rw [if_neg hc, if_neg h0, if_neg h1, if_neg h2]
  · intro hc
    unfold configurationInitHType setType
    rw [if_pos hc, if_neg h0, if_neg h1, if_neg h2]

/-- Witness for C10: precision 7 keeps float32 in complex mode and fails in
real mode. -/
theorem set_type_precision_check_witness :
    configurationInitHType 1 7 = Except.ok HType.float32 ∧
    configurationInitHType 0 7 = Except.error precisionErrMsg :=
  ⟨(set_type_precision_check 1 7 (by decide)).1 (by decide),
   (set_type_precision_check 0 7 (by decide)).2 rfl⟩
